import Mathlib

/-!
Verification development for the vocabulary-practice core of this repository.

The definitions below are shallow embeddings of the TypeScript source:
strings are modelled as `List Char`, JavaScript numbers used as counters
are modelled as `Nat`/`Int`, and the floating-point mastery arithmetic is
modelled over `ℚ` with explicit JavaScript-style rounding.  Randomness
(`Math.random()`) is modelled by an explicit source `rng : Nat → ℚ`
supplying the value of the i-th call.
-/

/-- Whitespace test used to model `String.prototype.trim`
(the characters relevant to this code base). -/
def isWhitespaceChar (c : Char) : Bool :=
  c = ' ' || c = '\t' || c = '\n' || c = '\r'

/-- Model of `s.trim()`: drop whitespace from both ends. -/
def trimStr (s : List Char) : List Char :=
  ((s.dropWhile isWhitespaceChar).reverse.dropWhile isWhitespaceChar).reverse

/-- Lower-case table for `String.prototype.toLowerCase`, covering the
ASCII letters and the accented letters appearing in this application's
French/English data. -/
def lowerPairs : List (Char × Char) :=
  [('A', 'a'), ('B', 'b'), ('C', 'c'), ('D', 'd'), ('E', 'e'), ('F', 'f'),
   ('G', 'g'), ('H', 'h'), ('I', 'i'), ('J', 'j'), ('K', 'k'), ('L', 'l'),
   ('M', 'm'), ('N', 'n'), ('O', 'o'), ('P', 'p'), ('Q', 'q'), ('R', 'r'),
   ('S', 's'), ('T', 't'), ('U', 'u'), ('V', 'v'), ('W', 'w'), ('X', 'x'),
   ('Y', 'y'), ('Z', 'z'),
   ('À', 'à'), ('Â', 'â'), ('Ä', 'ä'), ('Ç', 'ç'), ('É', 'é'), ('È', 'è'),
   ('Ê', 'ê'), ('Ë', 'ë'), ('Î', 'î'), ('Ï', 'ï'), ('Ô', 'ô'), ('Ö', 'ö'),
   ('Ù', 'ù'), ('Û', 'û'), ('Ü', 'ü'), ('Ÿ', 'ÿ'), ('Œ', 'œ'), ('Æ', 'æ')]

/-- Lower-case a single character (table lookup, identity elsewhere). -/
def toLowerChar (c : Char) : Char :=
  (lowerPairs.lookup c).getD c

/-- Model of `s.toLowerCase()`. -/
def toLowerStr (s : List Char) : List Char :=
  s.map toLowerChar

/-- A combining diacritical mark, the range `[̀-ͯ]` of the
source's `removeDiacritics`. -/
def isCombiningMark (c : Char) : Bool :=
  0x300 ≤ c.toNat && c.toNat ≤ 0x36F

/-- NFD decomposition table: accented letter ↦ base letter + combining mark. -/
def nfdPairs : List (Char × List Char) :=
  [('à', ['a', Char.ofNat 0x300]), ('â', ['a', Char.ofNat 0x302]),
   ('ä', ['a', Char.ofNat 0x308]), ('ç', ['c', Char.ofNat 0x327]),
   ('é', ['e', Char.ofNat 0x301]), ('è', ['e', Char.ofNat 0x300]),
   ('ê', ['e', Char.ofNat 0x302]), ('ë', ['e', Char.ofNat 0x308]),
   ('î', ['i', Char.ofNat 0x302]), ('ï', ['i', Char.ofNat 0x308]),
   ('ô', ['o', Char.ofNat 0x302]), ('ö', ['o', Char.ofNat 0x308]),
   ('ù', ['u', Char.ofNat 0x300]), ('û', ['u', Char.ofNat 0x302]),
   ('ü', ['u', Char.ofNat 0x308]), ('ÿ', ['y', Char.ofNat 0x308]),
   ('À', ['A', Char.ofNat 0x300]), ('Â', ['A', Char.ofNat 0x302]),
   ('Ä', ['A', Char.ofNat 0x308]), ('Ç', ['C', Char.ofNat 0x327]),
   ('É', ['E', Char.ofNat 0x301]), ('È', ['E', Char.ofNat 0x300]),
   ('Ê', ['E', Char.ofNat 0x302]), ('Ë', ['E', Char.ofNat 0x308]),
   ('Î', ['I', Char.ofNat 0x302]), ('Ï', ['I', Char.ofNat 0x308]),
   ('Ô', ['O', Char.ofNat 0x302]), ('Ö', ['O', Char.ofNat 0x308]),
   ('Ù', ['U', Char.ofNat 0x300]), ('Û', ['U', Char.ofNat 0x302]),
   ('Ü', ['U', Char.ofNat 0x308]), ('Ÿ', ['Y', Char.ofNat 0x308])]

/-- Canonical (NFD) decomposition of a single character, restricted to
the accented Latin letters relevant to this application; the ligatures
œ/æ have no canonical decomposition and are left as themselves, as
`String.prototype.normalize('NFD')` leaves them. -/
def nfdChar (c : Char) : List Char :=
  match (nfdPairs.lookup c) with
  | some d => d
  | none => [c]

/-- Model of the source's `removeDiacritics`:
`text.normalize('NFD').replace(/[̀-ͯ]/g, '')`. -/
def removeDiacritics (s : List Char) : List Char :=
  ((s.map nfdChar).flatten).filter (fun c => !(isCombiningMark c))

/-- The articles of the source's `stripArticles` regular expression
`/^(le |la |l'|les |un |une |des |the |a |an |to )/i`, in alternation order. -/
def articles : List (List Char) :=
  [['l', 'e', ' '], ['l', 'a', ' '], ['l', '\x27'], ['l', 'e', 's', ' '],
   ['u', 'n', ' '], ['u', 'n', 'e', ' '], ['d', 'e', 's', ' '],
   ['t', 'h', 'e', ' '], ['a', ' '], ['a', 'n', ' '], ['t', 'o', ' ']]

/-- Case-insensitive prefix test, modelling the `i` flag of the article regex. -/
def startsWithCI (a s : List Char) : Bool :=
  decide (toLowerStr (s.take a.length) = a)

/-- Model of the source's `stripArticles`: remove one leading article
(case-insensitively) and trim. -/
def stripArticles (s : List Char) : List Char :=
  match articles.find? (fun a => startsWithCI a s) with
  | some a => trimStr (s.drop a.length)
  | none => trimStr s

/-- Auxiliary recursion for the Levenshtein distance: given `f = lev xs`,
computes `lev (x :: xs)` by structural recursion on the second string. -/
def levAux (x : Char) (f : List Char → Nat) : List Char → Nat
  | [] => f [] + 1
  | y :: ys =>
    if x = y then f ys
    else 1 + min (f ys) (min (levAux x f ys) (f (y :: ys)))

/-- The source's `levenshteinDistance`: its dynamic-programming matrix
satisfies exactly this textbook recurrence (`matrix[i][j]` is the distance
between the length-`j` prefix of `a` and the length-`i` prefix of `b`,
with substitution / insertion / deletion all costing 1). -/
def levenshteinDistance : List Char → List Char → Nat
  | [], ys => ys.length
  | x :: xs, ys => levAux x (levenshteinDistance xs) ys

/-- The source's `isSimilar`: normalize (lower-case, trim, fold diacritics)
both sides, accept on equality, otherwise compare the edit distance with a
length-adaptive threshold. -/
def isSimilar (input target : List Char) : Bool :=
  let normalizedInput := removeDiacritics (trimStr (toLowerStr input))
  let normalizedTarget := removeDiacritics (trimStr (toLowerStr target))
  if normalizedInput = normalizedTarget then true
  else
    let maxDistance := if normalizedTarget.length ≤ 4 then 1 else 2
    decide (levenshteinDistance normalizedInput normalizedTarget ≤ maxDistance)

/-- Practice direction: `'fr-en'` (answer in English, i.e. toward the
target language) or `'en-fr'`. -/
inductive PracticeDirection where
  | frEn : PracticeDirection
  | enFr : PracticeDirection
deriving DecidableEq

/-- The `VocabWord` record of `types/index.ts` (strings as `List Char`). -/
structure VocabWord where
  id : List Char
  french : List Char
  english : List Char
  alternativeTranslations : Option (List (List Char)) := none
  gender : Option (List Char) := none
  partOfSpeech : List Char := []
  exampleFr : List Char := []
  exampleEn : List Char := []
  level : List Char := []
deriving DecidableEq

/-- The source's `validateAnswer`: normalize the answer, then try
exact match, article-stripped match and fuzzy match against each
acceptable answer for the given direction. -/
def validateAnswer (word : VocabWord) (answer : List Char)
    (direction : PracticeDirection) : Bool :=
  let normalizedAnswer := toLowerStr (trimStr answer)
  let strippedAnswer := stripArticles normalizedAnswer
  match direction with
  | PracticeDirection.frEn =>
    let acceptableAnswers :=
      toLowerStr word.english ::
        ((word.alternativeTranslations.map (fun ts => ts.map toLowerStr)).getD [])
    acceptableAnswers.any (fun acceptable =>
      let strippedAcceptable := stripArticles acceptable
      decide (normalizedAnswer = acceptable)
        || decide (strippedAnswer = strippedAcceptable)
        || isSimilar strippedAnswer strippedAcceptable)
  | PracticeDirection.enFr =>
    let frenchWord := toLowerStr word.french
    let strippedFrench := stripArticles frenchWord
    decide (normalizedAnswer = frenchWord)
      || decide (strippedAnswer = strippedFrench)
      || isSimilar strippedAnswer strippedFrench

/-- The `WordProgress` record of `types/index.ts`.  The counters are
non-negative integers (data-model invariant), `masteryLevel` is the
integer result of `calculateMastery`, and `lastSeen` is an ISO timestamp
string. -/
structure WordProgress where
  wordId : List Char
  timesCorrect : Nat
  timesWrong : Nat
  attempts : Nat
  lastSeen : List Char
  masteryLevel : Int
  streak : Nat
deriving DecidableEq

/-- JavaScript `Math.round` for the non-negative scores arising here:
round half away from zero, i.e. `⌊q + 1/2⌋`. -/
def jsRound (q : ℚ) : Int :=
  ⌊q + 1 / 2⌋

/-- The source's `calculateMastery` (`useWordProgress.ts`), with the
floating-point arithmetic modelled over `ℚ`. -/
def calculateMastery (progress : WordProgress) : Int :=
  if progress.attempts = 0 then 0
  else
    let accuracy : ℚ := (progress.timesCorrect : ℚ) / (progress.attempts : ℚ)
    let attemptBonus : ℚ := min ((progress.attempts : ℚ) / 10) 1
    let streakBonus : ℚ := min ((progress.streak : ℚ) / 5) (1 / 2)
    let rawScore := accuracy * 4 + attemptBonus + streakBonus
    min (max (jsRound rawScore) 0) 5

/-- The source's `createInitialProgress`; `now` models
`new Date().toISOString()`. -/
def createInitialProgress (wordId now : List Char) : WordProgress :=
  { wordId := wordId
    timesCorrect := 0
    timesWrong := 0
    attempts := 0
    lastSeen := now
    masteryLevel := 0
    streak := 0 }

/-- The pure record transition inside the source's `updateProgress`:
bump the counters, reset or extend the streak, stamp `lastSeen`, and
recompute `masteryLevel` from the just-updated counters. -/
def applyAnswer (existing : WordProgress) (isCorrect : Bool)
    (now : List Char) : WordProgress :=
  let updated : WordProgress :=
    { existing with
      timesCorrect := existing.timesCorrect + (if isCorrect then 1 else 0)
      timesWrong := existing.timesWrong + (if isCorrect then 0 else 1)
      attempts := existing.attempts + 1
      lastSeen := now
      streak := if isCorrect then existing.streak + 1 else 0
      masteryLevel := 0 }
  { updated with masteryLevel := calculateMastery updated }

/-- Model of `Map.prototype.set` on an association-list progress map. -/
def mapSet : List (List Char × WordProgress) → List Char → WordProgress →
    List (List Char × WordProgress)
  | [], k, v => [(k, v)]
  | (k0, v0) :: rest, k, v =>
    if k0 = k then (k, v) :: rest else (k0, v0) :: mapSet rest k v

/-- The source's `updateProgress` (`useWordProgress.ts`): read the
existing record (or create a fresh one), apply the answer, attempt to
persist it — the `try/catch` around `wordProgressStorage.update` logs a
failed persistence call and falls through — and update the in-memory
map.  `putResult` models the outcome of the persistence call. -/
def updateProgress (putResult : Except (List Char) Unit)
    (progress : List (List Char × WordProgress)) (wordId : List Char)
    (isCorrect : Bool) (now : List Char) :
    Except (List Char) (List (List Char × WordProgress)) :=
  let existing := (progress.lookup wordId).getD (createInitialProgress wordId now)
  let updated := applyAnswer existing isCorrect now
  match putResult with
  | Except.ok _ => Except.ok (mapSet progress wordId updated)
  | Except.error _ => Except.ok (mapSet progress wordId updated)

/-- An `{ item, weight }` pair as consumed by the source's `weightedShuffle`. -/
structure WeightedItem (α : Type) where
  item : α
  weight : ℚ

/-- Model of `Array.prototype.sort` with the comparator
`(a, b) => b.sortKey - a.sortKey`: a stable sort, descending in the key
(second component), modelled by Mathlib's stable insertion sort. -/
def sortBySortKeyDesc {α : Type} (l : List (α × ℚ)) : List (α × ℚ) :=
  l.insertionSort (fun a b => b.2 ≤ a.2)

/-- The source's `weightedShuffle`: pair each item with
`Math.random() * weight` (the i-th `Math.random()` call is `rng i`),
sort descending by that key, and drop the keys. -/
def weightedShuffle {α : Type} (rng : Nat → ℚ)
    (items : List (WeightedItem α)) : List α :=
  let weighted := items.enum.map (fun p => (p.2.item, rng p.1 * p.2.weight))
  let sorted := sortBySortKeyDesc weighted
  sorted.map Prod.fst

/-- Model of `Array.prototype.slice(0, count)` for a possibly negative `count`:
a negative end index counts from the end of the array. -/
def jsSliceTo {α : Type} (l : List α) (count : Int) : List α :=
  if count < 0 then l.take (max ((l.length : Int) + count) 0).toNat
  else l.take count.toNat

/-- The source's `selectWords` (`useVocabulary.ts`): drop the words
already seen this session, return `[]` on an empty candidate set,
otherwise weight the candidates by mastery (`max(1, 6 - masteryLevel)`,
5 when unseen), weighted-shuffle them and take the first `count`. -/
def selectWords (rng : Nat → ℚ) (words : List VocabWord)
    (progress : List Char → Option WordProgress)
    (seenThisSession : List (List Char)) (count : Int) : List VocabWord :=
  let candidates := words.filter (fun w => !(seenThisSession.contains w.id))
  if candidates.isEmpty then []
  else
    let weighted := candidates.map (fun word =>
      let weight : Int :=
        match progress word.id with
        | some p => max 1 (6 - p.masteryLevel)
        | none => 5
      WeightedItem.mk word (Int.cast weight : ℚ))
    jsSliceTo (weightedShuffle rng weighted) count

/-- The sorted list is a permutation of the keyed list. -/
theorem sortBySortKeyDesc_perm {α : Type} (l : List (α × ℚ)) :
    (sortBySortKeyDesc l).Perm l :=
  List.perm_insertionSort _ l

/-- The shuffle permutes the items of its input (helper form). -/
theorem weightedShuffle_perm {α : Type} (rng : Nat → ℚ)
    (items : List (WeightedItem α)) :
    (weightedShuffle rng items).Perm (items.map WeightedItem.item) := by
  unfold weightedShuffle
  have h1 := (sortBySortKeyDesc_perm
    (items.enum.map (fun p => (p.2.item, rng p.1 * p.2.weight)))).map Prod.fst
  refine h1.trans ?_
  rw [List.map_map]
  have : (Prod.fst ∘ fun p : Nat × WeightedItem α => (p.2.item, rng p.1 * p.2.weight))
      = (fun p : Nat × WeightedItem α => p.2.item) := rfl
  rw [this]
  have h2 : (fun p : Nat × WeightedItem α => p.2.item)
      = WeightedItem.item ∘ Prod.snd := rfl
  rw [h2, ← List.map_map, List.enum_map_snd]

/-- The shuffle preserves length (helper form). -/
theorem weightedShuffle_length {α : Type} (rng : Nat → ℚ)
    (items : List (WeightedItem α)) :
    (weightedShuffle rng items).length = items.length := by
  have := (weightedShuffle_perm rng items).length_eq
  simpa using this

/-- The concrete item of the spec's example scenario:
`{sourceText:"maison", targetText:"house", alternativeTargetTexts:["home"]}`. -/
def houseWord : VocabWord :=
  { id := "m1".toList
    french := "maison".toList
    english := "house".toList
    alternativeTranslations := some ["home".toList] }

/-- C10: for every weighted input list and every outcome of the random
number source, `weightedShuffle` returns a permutation of the input
items: the output has the same length and the same multiset of elements
as the input, with no item dropped or duplicated. -/
theorem weightedShuffle_is_permutation {α : Type} (rng : Nat → ℚ)
    (items : List (WeightedItem α)) :
    (weightedShuffle rng items).Perm (items.map WeightedItem.item) ∧
    (weightedShuffle rng items).length = items.length :=
  ⟨weightedShuffle_perm rng items, weightedShuffle_length rng items⟩

/-- One step of `applyAnswer` preserves `attempts = timesCorrect + timesWrong`. -/
theorem applyAnswer_step_inv (p : WordProgress) (b : Bool) (now : List Char)
    (h : p.attempts = p.timesCorrect + p.timesWrong) :
    (applyAnswer p b now).attempts
      = (applyAnswer p b now).timesCorrect + (applyAnswer p b now).timesWrong := by
  simp only [applyAnswer]
  cases b <;> simp <;> omega

/-- Folding a list of answers from any record satisfying the counter
invariant keeps satisfying it. -/
theorem foldl_applyAnswer_inv (answers : List (Bool × List Char))
    (r : WordProgress) (h : r.attempts = r.timesCorrect + r.timesWrong) :
    (answers.foldl (fun q a => applyAnswer q a.1 a.2) r).attempts
      = (answers.foldl (fun q a => applyAnswer q a.1 a.2) r).timesCorrect
        + (answers.foldl (fun q a => applyAnswer q a.1 a.2) r).timesWrong := by
  induction answers generalizing r with
  | nil => simpa using h
  | cons a as ih => exact ih _ (applyAnswer_step_inv _ _ _ h)

/-- C6: if the input record satisfies `attempts = timesCorrect + timesWrong`
(in particular the freshly initialized record does), the record produced by
`applyAnswer` satisfies it again; consequently every record reachable from
the initial record by repeated answers satisfies it. -/
theorem applyAnswer_counter_consistency :
    (∀ (p : WordProgress) (b : Bool) (now : List Char),
      p.attempts = p.timesCorrect + p.timesWrong →
      (applyAnswer p b now).attempts
        = (applyAnswer p b now).timesCorrect + (applyAnswer p b now).timesWrong) ∧
    (∀ (wordId now0 : List Char) (answers : List (Bool × List Char)),
      (answers.foldl (fun q a => applyAnswer q a.1 a.2)
          (createInitialProgress wordId now0)).attempts
        = (answers.foldl (fun q a => applyAnswer q a.1 a.2)
            (createInitialProgress wordId now0)).timesCorrect
          + (answers.foldl (fun q a => applyAnswer q a.1 a.2)
              (createInitialProgress wordId now0)).timesWrong) :=
  ⟨applyAnswer_step_inv,
   fun wordId now0 answers => foldl_applyAnswer_inv answers _ (by rfl)⟩

/-- Witness for C6 at a concrete record and concrete answer list. -/
theorem applyAnswer_counter_consistency_witness :
    ({ wordId := ['w'], timesCorrect := 3, timesWrong := 2, attempts := 5,
       lastSeen := ['t'], masteryLevel := 2, streak := 1 } : WordProgress).attempts
      = ({ wordId := ['w'], timesCorrect := 3, timesWrong := 2, attempts := 5,
           lastSeen := ['t'], masteryLevel := 2, streak := 1 } : WordProgress).timesCorrect
        + ({ wordId := ['w'], timesCorrect := 3, timesWrong := 2, attempts := 5,
             lastSeen := ['t'], masteryLevel := 2, streak := 1 } : WordProgress).timesWrong ∧
    (applyAnswer
        { wordId := ['w'], timesCorrect := 3, timesWrong := 2, attempts := 5,
          lastSeen := ['t'], masteryLevel := 2, streak := 1 } false ['u']).attempts
      = (applyAnswer
          { wordId := ['w'], timesCorrect := 3, timesWrong := 2, attempts := 5,
            lastSeen := ['t'], masteryLevel := 2, streak := 1 } false ['u']).timesCorrect
        + (applyAnswer
            { wordId := ['w'], timesCorrect := 3, timesWrong := 2, attempts := 5,
              lastSeen := ['t'], masteryLevel := 2, streak := 1 } false ['u']).timesWrong :=
  ⟨by decide,
   applyAnswer_counter_consistency.1
     { wordId := ['w'], timesCorrect := 3, timesWrong := 2, attempts := 5,
       lastSeen := ['t'], masteryLevel := 2, streak := 1 } false ['u'] (by decide)⟩

/-- C5 counterexample: a failing persistence call (`put` returning an
error) is not propagated: `updateProgress` still completes with an `ok`
result, so the claim that the failure reaches the caller unmodified is
false on this code. -/
theorem updateProgress_put_failure_swallowed_cex :
    updateProgress (Except.error ("disk".toList)) [] ("w1".toList) true ("t0".toList)
        ≠ Except.error ("disk".toList) ∧
    (updateProgress (Except.error ("disk".toList)) [] ("w1".toList) true
        ("t0".toList)).isOk = true := by
  exact ⟨by simp [updateProgress], rfl⟩

/-- C5 amended: `updateProgress` catches a persistence failure (logging
it) and completes normally, producing the same updated in-memory map as a
successful persistence call; the failure is never propagated. -/
theorem updateProgress_put_failure_not_propagated (e : List Char)
    (progress : List (List Char × WordProgress)) (wordId : List Char)
    (isCorrect : Bool) (now : List Char) :
    updateProgress (Except.error e) progress wordId isCorrect now
      = updateProgress (Except.ok ()) progress wordId isCorrect now ∧
    (updateProgress (Except.error e) progress wordId isCorrect now).isOk = true :=
  ⟨rfl, rfl⟩

/-- C1: under the counter invariant, `calculateMastery` returns 0 on zero
attempts and otherwise `round(accuracy*4 + attemptBonus + streakBonus)`
clamped into [0,5]; the result is always in [0,5]. -/
theorem calculateMastery_formula_and_bounds (p : WordProgress)
    (h : p.attempts = p.timesCorrect + p.timesWrong) :
    (p.attempts = 0 → calculateMastery p = 0) ∧
    calculateMastery p
      = (if p.attempts = 0 then 0 else
          min (max (jsRound ((p.timesCorrect : ℚ) / (p.attempts : ℚ) * 4
              + min ((p.attempts : ℚ) / 10) 1
              + min ((p.streak : ℚ) / 5) (1 / 2))) 0) 5) ∧
    0 ≤ calculateMastery p ∧ calculateMastery p ≤ 5 := by
  refine ⟨fun h0 => by simp [calculateMastery, h0], rfl, ?_, ?_⟩
  · unfold calculateMastery
    split
    · exact le_refl 0
    · exact le_min (le_max_right _ 0) (by norm_num)
  · unfold calculateMastery
    split
    · norm_num
    · exact min_le_right _ 5

/-- Witness for C1 at the spec's example record
`timesCorrect=20, timesWrong=0, attempts=20, streak=10`. -/
theorem calculateMastery_formula_and_bounds_witness :
    ({ wordId := ['w'], timesCorrect := 20, timesWrong := 0, attempts := 20,
       lastSeen := ['t'], masteryLevel := 0, streak := 10 } : WordProgress).attempts
      = 20 + 0 ∧
    (0 ≤ calculateMastery
        { wordId := ['w'], timesCorrect := 20, timesWrong := 0, attempts := 20,
          lastSeen := ['t'], masteryLevel := 0, streak := 10 } ∧
      calculateMastery
        { wordId := ['w'], timesCorrect := 20, timesWrong := 0, attempts := 20,
          lastSeen := ['t'], masteryLevel := 0, streak := 10 } ≤ 5) :=
  ⟨by decide,
   (calculateMastery_formula_and_bounds
     { wordId := ['w'], timesCorrect := 20, timesWrong := 0, attempts := 20,
       lastSeen := ['t'], masteryLevel := 0, streak := 10 } (by decide)).2.2⟩

theorem toLowerStr_nil : toLowerStr [] = [] := rfl

theorem trimStr_nil : trimStr [] = [] := rfl

theorem stripArticles_nil : stripArticles [] = [] := rfl

theorem removeDiacritics_nil : removeDiacritics [] = [] := rfl

/-- The edit distance of a string to itself is 0. -/
theorem levenshteinDistance_self (s : List Char) : levenshteinDistance s s = 0 := by
  induction s with
  | nil => rfl
  | cons x xs ih => simp [levenshteinDistance, levAux, ih]

/-- The edit distance from the empty string is the length. -/
theorem levenshteinDistance_nil_left (t : List Char) :
    levenshteinDistance [] t = t.length := rfl

/-- C2: the fuzzy stage accepts exactly when the edit distance of the
diacritic-folded, normalized sides is at most the length-adaptive
threshold (1 for folded candidates of length ≤ 4, else 2); and on the
spec's example item, the typo "hose" for "house" is accepted. -/
theorem isSimilar_fuzzy_threshold_iff :
    (∀ input target : List Char,
      isSimilar input target
        = decide (levenshteinDistance
              (removeDiacritics (trimStr (toLowerStr input)))
              (removeDiacritics (trimStr (toLowerStr target)))
            ≤ (if (removeDiacritics (trimStr (toLowerStr target))).length ≤ 4
               then 1 else 2))) ∧
    validateAnswer houseWord ("hose".toList) PracticeDirection.frEn = true := by
  constructor
  · intro input target
    unfold isSimilar
    by_cases h : removeDiacritics (trimStr (toLowerStr input))
        = removeDiacritics (trimStr (toLowerStr target))
    · rw [if_pos h, h, levenshteinDistance_self]
      split <;> rfl
    · rw [if_neg h]
  · decide

/-- The canonical answers `validateAnswer` checks the input against for a
given direction (before lower-casing): target text and alternatives for
`'fr-en'`, the source text for `'en-fr'`. -/
def relevantCandidates (word : VocabWord) : PracticeDirection → List (List Char)
  | PracticeDirection.frEn => word.english :: word.alternativeTranslations.getD []
  | PracticeDirection.enFr => [word.french]

/-- Against a candidate whose article-stripped, folded form has length at
least 2, the empty input fails all three matching stages. -/
theorem candidate_rejects_empty (t : List Char)
    (hL : 2 ≤ (removeDiacritics (trimStr (toLowerStr
        (stripArticles (toLowerStr t))))).length) :
    (decide (([] : List Char) = toLowerStr t)
      || decide (([] : List Char) = stripArticles (toLowerStr t))
      || isSimilar [] (stripArticles (toLowerStr t))) = false := by
  have h1 : ¬ (([] : List Char) = toLowerStr t) := by
    intro heq
    rw [← heq] at hL
    exact absurd hL (by decide)
  have h2 : ¬ (([] : List Char) = stripArticles (toLowerStr t)) := by
    intro heq
    rw [← heq] at hL
    exact absurd hL (by decide)
  have h3 : isSimilar [] (stripArticles (toLowerStr t)) = false := by
    unfold isSimilar
    have hne : removeDiacritics (trimStr (toLowerStr ([] : List Char)))
        ≠ removeDiacritics (trimStr (toLowerStr (stripArticles (toLowerStr t)))) := by
      intro heq
      rw [← heq] at hL
      exact absurd hL (by decide)
    rw [if_neg hne]
    simp only [toLowerStr_nil, trimStr_nil, removeDiacritics_nil,
      levenshteinDistance_nil_left]
    apply decide_eq_false
    intro hle
    rcases le_or_lt (removeDiacritics (trimStr (toLowerStr
        (stripArticles (toLowerStr t))))).length 4 with h4 | h4
    · rw [if_pos h4] at hle; omega
    · rw [if_neg (not_le.mpr h4)] at hle; omega
  rw [decide_eq_false h1, decide_eq_false h2, h3]
  rfl

/-- C3 counterexample: the item `{french:"avoir", english:"a"}` is
well-formed (both texts non-empty after trimming), yet the empty input is
accepted in direction `'fr-en'`: the fuzzy stage's threshold 1 covers the
distance from `""` to the length-1 candidate `"a"`. -/
theorem validateAnswer_empty_input_accepted_cex :
    trimStr ("a".toList) ≠ [] ∧ trimStr ("avoir".toList) ≠ [] ∧
    validateAnswer
      { id := "w0".toList, french := "avoir".toList, english := "a".toList }
      [] PracticeDirection.frEn = true := by
  exact ⟨by decide, by decide, by decide⟩

/-- C3 amended: a whitespace-only (in particular empty) input is rejected
for every item and direction whose candidates all have article-stripped,
diacritic-folded length at least 2; items with a shorter candidate (such
as a length-1 target) accept the empty input through the fuzzy stage. -/
theorem validateAnswer_empty_input_rejects (word : VocabWord)
    (input : List Char) (direction : PracticeDirection)
    (hin : trimStr input = [])
    (hc : ∀ t ∈ relevantCandidates word direction,
      2 ≤ (removeDiacritics (trimStr (toLowerStr
          (stripArticles (toLowerStr t))))).length) :
    validateAnswer word input direction = false := by
  cases direction with
  | frEn =>
    simp only [validateAnswer, hin, toLowerStr_nil, stripArticles_nil]
    rw [List.any_eq_false]
    intro acceptable hacc
    cases hacc with
    | head =>
      simp only [Bool.not_eq_true]
      exact candidate_rejects_empty word.english
        (hc word.english (by simp [relevantCandidates]))
    | tail b h =>
      rcases halt : word.alternativeTranslations with _ | ts
      · rw [halt] at h; cases h
      · rw [halt] at h
        simp only [Option.map_some', Option.getD_some] at h
        rcases List.mem_map.mp h with ⟨t, ht, rfl⟩
        simp only [Bool.not_eq_true]
        exact candidate_rejects_empty t
          (hc t (by simp [relevantCandidates, halt, ht]))
  | enFr =>
    simp only [validateAnswer, hin, toLowerStr_nil, stripArticles_nil]
    have := candidate_rejects_empty word.french
      (hc word.french (by simp [relevantCandidates]))
    simpa using this

/-- Witness for C3's amended theorem: a whitespace-only input against the
spec's example item (candidates "house" and "home", both of folded length
at least 2) is rejected. -/
theorem validateAnswer_empty_input_rejects_witness :
    trimStr [' '] = ([] : List Char) ∧
    validateAnswer houseWord [' '] PracticeDirection.frEn = false :=
  ⟨by decide,
   validateAnswer_empty_input_rejects houseWord [' '] PracticeDirection.frEn
     (by decide) (by decide)⟩

/-- C8 counterexample: the item `{french:"le chat", english:"the "}` is
well-formed in the spec's sense (both texts non-empty after trimming),
yet submitting the item's own target text is rejected: the trailing space
makes the exact stage fail, article stripping turns the candidate into
the empty string while the input keeps "the", and the fuzzy distance 3
exceeds the threshold 1. -/
theorem validateAnswer_exact_match_cex :
    trimStr (("the ").toList) ≠ [] ∧ trimStr ("le chat".toList) ≠ [] ∧
    validateAnswer
      { id := "wt".toList, french := "le chat".toList, english := "the ".toList }
      ("the ".toList) PracticeDirection.frEn = false := by
  exact ⟨by decide, by decide, by decide⟩

/-- C8 amended: for every item whose target text carries no leading or
trailing whitespace, submitting the target text verbatim is accepted in
direction `'fr-en'`, and likewise for each whitespace-trimmed alternative
target text. -/
theorem validateAnswer_exact_match (word : VocabWord)
    (ht : trimStr word.english = word.english) :
    validateAnswer word word.english PracticeDirection.frEn = true ∧
    ∀ s ∈ word.alternativeTranslations.getD [], trimStr s = s →
      validateAnswer word s PracticeDirection.frEn = true := by
  constructor
  · simp only [validateAnswer, ht]
    rw [List.any_eq_true]
    exact ⟨toLowerStr word.english, List.mem_cons_self _ _, by simp⟩
  · intro s hs hts
    simp only [validateAnswer, hts]
    rw [List.any_eq_true]
    refine ⟨toLowerStr s, ?_, by simp⟩
    apply List.mem_cons_of_mem
    rcases halt : word.alternativeTranslations with _ | ts
    · rw [halt] at hs; cases hs
    · rw [halt] at hs
      simp only [Option.getD_some] at hs
      simp only [Option.map_some', Option.getD_some]
      exact List.mem_map_of_mem toLowerStr hs

/-- Witness for C8's amended theorem on the spec's example item: both
"house" and the alternative "home" are accepted verbatim. -/
theorem validateAnswer_exact_match_witness :
    trimStr houseWord.english = houseWord.english ∧
    validateAnswer houseWord houseWord.english PracticeDirection.frEn = true ∧
    validateAnswer houseWord ("home".toList) PracticeDirection.frEn = true :=
  ⟨by decide,
   (validateAnswer_exact_match houseWord (by decide)).1,
   (validateAnswer_exact_match houseWord (by decide)).2 ("home".toList)
     (by decide) (by decide)⟩

/-- A deterministic outcome of the random source: every call returns 0. -/
def rngZero : Nat → ℚ := fun _ => 0

/-- The empty progress map. -/
def progEmpty : List Char → Option WordProgress := fun _ => none

/-- Concrete pool items for counterexamples and witnesses. -/
def cw1 : VocabWord :=
  { id := "w1".toList, french := "chat".toList, english := "cat".toList }

def cw2 : VocabWord :=
  { id := "w2".toList, french := "chien".toList, english := "dog".toList }

/-- Length of `slice(0, count)` for an arbitrary (possibly negative) count. -/
theorem jsSliceTo_length {α : Type} (l : List α) (count : Int) :
    (jsSliceTo l count).length
      = if count < 0 then min (max ((l.length : Int) + count) 0).toNat l.length
        else min count.toNat l.length := by
  unfold jsSliceTo
  split <;> simp [List.length_take]

/-- C4 counterexample: with two candidates and `count = -1`,
`selectWords` returns one item, not the empty list — JavaScript's
`slice(0, count)` interprets a negative `count` from the end of the
array, so the claim fails for negative counts. -/
theorem selectWords_negative_count_nonempty_cex :
    selectWords rngZero [cw1, cw2] progEmpty [] (-1) ≠ [] := by
  have hfil : [cw1, cw2].filter
      (fun w => !(([] : List (List Char)).contains w.id)) = [cw1, cw2] := by decide
  have hlen : (selectWords rngZero [cw1, cw2] progEmpty [] (-1)).length = 1 := by
    simp only [selectWords, hfil, List.isEmpty_cons, Bool.false_eq_true, if_false]
    rw [jsSliceTo_length, if_pos (by decide : (-1 : Int) < 0),
      weightedShuffle_length, List.length_map]
    decide
  intro h
  rw [h] at hlen
  exact absurd hlen (by decide)

/-- C4 amended: `selectWords` with `count = 0` returns the empty list;
with `count < 0` JavaScript slice semantics keep all but the last
`|count|` shuffled candidates, so the result has
`max(candidates - |count|, 0)` items — empty only when the candidate set
has at most `|count|` elements. -/
theorem selectWords_nonpositive_count (rng : Nat → ℚ) (words : List VocabWord)
    (progress : List Char → Option WordProgress) (seen : List (List Char)) :
    selectWords rng words progress seen 0 = [] ∧
    ∀ count : Int, count < 0 →
      (selectWords rng words progress seen count).length
        = (words.filter (fun w => !(seen.contains w.id))).length
          - min (-count).toNat
              (words.filter (fun w => !(seen.contains w.id))).length := by
  constructor
  · simp only [selectWords]
    split
    · rfl
    · simp [jsSliceTo]
  · intro count hcount
    simp only [selectWords]
    split
    · rename_i hemp
      rw [List.isEmpty_iff] at hemp
      rw [hemp]
      simp
    · rw [jsSliceTo_length, if_pos hcount, weightedShuffle_length,
        List.length_map]
      omega

/-- Witness for C4 at a concrete pool of two items with `count = 0` and
`count = -1`. -/
theorem selectWords_nonpositive_count_witness :
    selectWords rngZero [cw1, cw2] progEmpty [] 0 = [] ∧
    ((-1 : Int) < 0 ∧
      (selectWords rngZero [cw1, cw2] progEmpty [] (-1)).length
        = ([cw1, cw2].filter
            (fun w => !(([] : List (List Char)).contains w.id))).length
          - min ((-(-1) : Int)).toNat
              ([cw1, cw2].filter
                (fun w => !(([] : List (List Char)).contains w.id))).length) :=
  ⟨(selectWords_nonpositive_count rngZero [cw1, cw2] progEmpty []).1,
   by decide,
   (selectWords_nonpositive_count rngZero [cw1, cw2] progEmpty []).2 (-1)
     (by decide)⟩

/-- C7: from a pool of at least `n` items with pairwise-distinct ids and
a fresh session (empty seen set), `selectWords` returns exactly `n` items
with pairwise-distinct ids, for every outcome of the random source. -/
theorem selectWords_no_repeat (rng : Nat → ℚ) (pool : List VocabWord)
    (progress : List Char → Option WordProgress) (n : Nat)
    (hnodup : (pool.map VocabWord.id).Nodup) (hn : n ≤ pool.length) :
    (selectWords rng pool progress [] ((n : Nat) : Int)).length = n ∧
    ((selectWords rng pool progress [] ((n : Nat) : Int)).map
        VocabWord.id).Nodup := by
  have hfil : pool.filter
      (fun w => !(([] : List (List Char)).contains w.id)) = pool :=
    List.filter_eq_self.mpr (fun a _ => rfl)
  simp only [selectWords, hfil]
  by_cases hpool : pool = []
  · subst hpool
    have hn0 : n = 0 := by simpa using hn
    subst hn0
    simp
  · have hne : pool.isEmpty = false := by
      rw [List.isEmpty_eq_false]
      exact hpool
    rw [hne]
    simp only [Bool.false_eq_true, if_false]
    have hcomp : (WeightedItem.item ∘ fun word : VocabWord =>
        WeightedItem.mk word
          (Int.cast (match progress word.id with
            | some p => max 1 (6 - p.masteryLevel)
            | none => 5) : ℚ)) = id := rfl
    have hperm : (weightedShuffle rng (pool.map (fun word : VocabWord =>
        WeightedItem.mk word
          (Int.cast (match progress word.id with
            | some p => max 1 (6 - p.masteryLevel)
            | none => 5) : ℚ)))).Perm pool := by
      have h1 := weightedShuffle_perm rng (pool.map (fun word : VocabWord =>
        WeightedItem.mk word
          (Int.cast (match progress word.id with
            | some p => max 1 (6 - p.masteryLevel)
            | none => 5) : ℚ)))
      rwa [List.map_map, hcomp, List.map_id] at h1
    have hlength := hperm.length_eq
    have hslice : ∀ l : List VocabWord, jsSliceTo l ((n : Nat) : Int) = l.take n := by
      intro l
      unfold jsSliceTo
      rw [if_neg (by omega), Int.toNat_natCast]
    rw [hslice]
    constructor
    · rw [List.length_take, hlength]
      omega
    · have hnd : ((weightedShuffle rng (pool.map (fun word : VocabWord =>
          WeightedItem.mk word
            (Int.cast (match progress word.id with
              | some p => max 1 (6 - p.masteryLevel)
              | none => 5) : ℚ)))).map VocabWord.id).Nodup :=
        ((hperm.map VocabWord.id).nodup_iff).mpr hnodup
      have hsub := (List.take_sublist n (weightedShuffle rng (pool.map
        (fun word : VocabWord =>
          WeightedItem.mk word
            (Int.cast (match progress word.id with
              | some p => max 1 (6 - p.masteryLevel)
              | none => 5) : ℚ))))).map VocabWord.id
      exact hsub.nodup hnd

/-- Witness for C7: two distinct-id items, `n = 2`, the all-zero random
source and the empty progress map. -/
theorem selectWords_no_repeat_witness :
    ([cw1, cw2].map VocabWord.id).Nodup ∧ 2 ≤ [cw1, cw2].length ∧
    ((selectWords rngZero [cw1, cw2] progEmpty [] ((2 : Nat) : Int)).length = 2 ∧
      ((selectWords rngZero [cw1, cw2] progEmpty []
          ((2 : Nat) : Int)).map VocabWord.id).Nodup) :=
  ⟨by decide, by decide,
   selectWords_no_repeat rngZero [cw1, cw2] progEmpty 2 (by decide) (by decide)⟩

/-- A character predicate that agrees on both columns of a lookup table
is preserved by looking up in the table. -/
theorem lookup_getD_preserves (P : Char → Bool) (ps : List (Char × Char))
    (hps : ∀ p ∈ ps, P p.1 = P p.2) (c : Char) :
    P ((ps.lookup c).getD c) = P c := by
  induction ps with
  | nil => rfl
  | cons q qs ih =>
    obtain ⟨k, v⟩ := q
    rw [List.lookup_cons]
    by_cases h : c = k
    · subst h
      have hbeq : (c == c) = true := beq_self_eq_true c
      simp only [hbeq, Option.getD_some]
      have := hps (c, v) (List.mem_cons_self _ _)
      simpa using this.symm
    · have hbeq : (c == k) = false := beq_false_of_ne h
      simp only [hbeq]
      exact ih (fun p hp => hps p (List.mem_cons_of_mem _ hp))

/-- Lower-casing a character does not change whether it is whitespace. -/
theorem isWhitespaceChar_toLowerChar (c : Char) :
    isWhitespaceChar (toLowerChar c) = isWhitespaceChar c :=
  lookup_getD_preserves isWhitespaceChar lowerPairs (by decide) c

/-- Dropping while a predicate holds skips a prefix on which it holds. -/
theorem dropWhile_all_append (p : Char → Bool) (ws t : List Char)
    (hws : ∀ c ∈ ws, p c = true) :
    (ws ++ t).dropWhile p = t.dropWhile p := by
  rw [List.dropWhile_append, List.dropWhile_eq_nil_iff.mpr hws]
  simp

/-- Trimming ignores an all-whitespace prefix. -/
theorem trimStr_ws_left (ws t : List Char)
    (hws : ∀ c ∈ ws, isWhitespaceChar c = true) :
    trimStr (ws ++ t) = trimStr t := by
  unfold trimStr
  rw [dropWhile_all_append _ _ _ hws]

/-- Trimming ignores an all-whitespace suffix. -/
theorem trimStr_ws_right (ws t : List Char)
    (hws : ∀ c ∈ ws, isWhitespaceChar c = true) :
    trimStr (t ++ ws) = trimStr t := by
  unfold trimStr
  by_cases h : t.dropWhile isWhitespaceChar = []
  · rw [List.dropWhile_append, h]
    simp [List.dropWhile_eq_nil_iff.mpr hws]
  · rw [List.dropWhile_append, if_neg (by simp [List.isEmpty_iff, h])]
    rw [List.reverse_append]
    rw [dropWhile_all_append isWhitespaceChar ws.reverse _
      (fun c hc => hws c (List.mem_reverse.mp hc))]

/-- Trimming commutes with a character map that preserves
whitespace-ness. -/
theorem trimStr_map (f : Char → Char)
    (hf : ∀ c, isWhitespaceChar (f c) = isWhitespaceChar c) (l : List Char) :
    trimStr (l.map f) = (trimStr l).map f := by
  have hfe : (isWhitespaceChar ∘ f) = isWhitespaceChar := funext hf
  have hdw : ∀ u : List Char, (u.map f).dropWhile isWhitespaceChar
      = (u.dropWhile isWhitespaceChar).map f := by
    intro u
    rw [List.dropWhile_map, hfe]
  unfold trimStr
  rw [hdw, ← List.map_reverse, hdw, List.map_reverse]

/-- Lower-casing after a case-change map equals plain lower-casing. -/
theorem toLowerStr_map (f : Char → Char)
    (hf : ∀ c, toLowerChar (f c) = toLowerChar c) (l : List Char) :
    toLowerStr (l.map f) = toLowerStr l := by
  unfold toLowerStr
  rw [List.map_map]
  congr 1
  exact funext hf

/-- The validator depends on the user input only through
`toLowerCase(trim(input))`. -/
theorem validateAnswer_congr (word : VocabWord) (direction : PracticeDirection)
    (a b : List Char) (h : toLowerStr (trimStr a) = toLowerStr (trimStr b)) :
    validateAnswer word a direction = validateAnswer word b direction := by
  simp only [validateAnswer, h]

/-- C9: if an input is accepted, then so is any variant of it obtained by
adding leading/trailing whitespace and changing the case of its letters
(`f` maps each character to one with the same lower-case form): such
changes never flip a `true` verdict to `false`. -/
theorem validateAnswer_case_whitespace_insensitive (word : VocabWord)
    (direction : PracticeDirection) (s ws1 ws2 : List Char) (f : Char → Char)
    (hws1 : ∀ c ∈ ws1, isWhitespaceChar c = true)
    (hws2 : ∀ c ∈ ws2, isWhitespaceChar c = true)
    (hf : ∀ c, toLowerChar (f c) = toLowerChar c)
    (h : validateAnswer word s direction = true) :
    validateAnswer word (ws1 ++ s.map f ++ ws2) direction = true := by
  have hwf : ∀ c, isWhitespaceChar (f c) = isWhitespaceChar c := fun c => by
    rw [← isWhitespaceChar_toLowerChar (f c), hf c, isWhitespaceChar_toLowerChar]
  have key : toLowerStr (trimStr (ws1 ++ s.map f ++ ws2))
      = toLowerStr (trimStr s) := by
    rw [trimStr_ws_right ws2 _ hws2, trimStr_ws_left ws1 _ hws1,
      trimStr_map f hwf, toLowerStr_map f hf]
  exact (validateAnswer_congr word direction _ s key).trans h

/-- Witness for C9: "HOUSE" is accepted for the example item, and so is
its variant wrapped in a leading space and a trailing tab. -/
theorem validateAnswer_case_whitespace_insensitive_witness :
    ([' '].all isWhitespaceChar = true ∧ ['\t'].all isWhitespaceChar = true) ∧
    validateAnswer houseWord ([' '] ++ ("HOUSE".toList).map id ++ ['\t'])
      PracticeDirection.frEn = true :=
  ⟨⟨by decide, by decide⟩,
   validateAnswer_case_whitespace_insensitive houseWord PracticeDirection.frEn
     ("HOUSE".toList) [' '] ['\t'] id (by decide) (by decide) (fun c => rfl)
     (by decide)⟩
